import Mathlib

/-!
# Verification of the pathfinder state-commitment core

Shallow embedding of the Poseidon permutation
(`crates/crypto/src/hash/poseidon/permutation.rs`), the sync driver helper
`next_missing` and the state-diff apply pipeline `verify_one`
(`crates/pathfinder/src/sync/p2p/state_updates.rs`), together with theorems
settling the specification claims about them.

The merkle-tree engine (`pathfinder_merkle_tree::merkle_tree`,
`StorageCommitmentTree`, `update_contract_state`) and the round-constant
table `POSEIDON_COMP_CONSTS` are collaborators whose sources are not part of
the files under review; they are modelled from the spec where needed and
marked as such, or abstracted into an explicit environment of functions.
-/

namespace PathfinderSpec

/-! ## Field -/

/-- The StarkNet base-field prime: `p = 2^251 + 17 * 2^192 + 1`. -/
def PPRIME : ℕ := 2 ^ 251 + 17 * 2 ^ 192 + 1

/-- Field elements (`MontFelt` / `Felt` in the source); Montgomery form is a
representation detail with no observable effect on field values. -/
abbrev F : Type := ZMod PPRIME

/-! ## Poseidon permutation (`permutation.rs`)

The round-constant table `POSEIDON_COMP_CONSTS` lives in
`crates/crypto/src/hash/poseidon/consts.rs`, which is not among the sources
under review; the embedding therefore takes the table as a parameter
`cs : ℕ → F` (the source indexes the table by `usize`).
-/

/-- `PoseidonState`: a 3-element field state (`[MontFelt; 3]`). -/
abbrev PoseidonState : Type := F × F × F

/-- `FULL_ROUNDS` constant from `permutation.rs`. -/
def FULL_ROUNDS : ℕ := 8

/-- `PARTIAL_ROUNDS` constant from `permutation.rs`. -/
def PARTIAL_ROUNDS : ℕ := 83

/-- `MontFelt::double`. -/
def double (x : F) : F := x + x

/-- The S-box `state.square() * state`, i.e. `x ↦ x³`. -/
def cube (x : F) : F := x * x * x

/-- `mix`: the MixLayer operation from `permutation.rs`:
`t = s0 + s1 + s2`, then
`(t + s0.double(), t - s1.double(), t - (s2.double() + s2))`. -/
def mix (s : PoseidonState) : PoseidonState :=
  let t := s.1 + s.2.1 + s.2.2
  (t + double s.1, t - double s.2.1, t - (double s.2.2 + s.2.2))

/-- `full_round`: add a round constant to each lane, cube each lane, mix.
Reads the constant table at `idx`, `idx + 1`, `idx + 2`. -/
def full_round (cs : ℕ → F) (s : PoseidonState) (idx : ℕ) : PoseidonState :=
  mix (cube (s.1 + cs idx), cube (s.2.1 + cs (idx + 1)), cube (s.2.2 + cs (idx + 2)))

/-- `partial_round`: add one round constant to lane 2, cube lane 2, mix.
Reads the constant table at `idx` only. -/
def partial_round (cs : ℕ → F) (s : PoseidonState) (idx : ℕ) : PoseidonState :=
  mix (s.1, s.2.1, cube (s.2.2 + cs idx))

/-- The `for _ in 0..n { full_round(state, idx); idx += 3 }` loop of `permute`,
threading `(state, idx)`. -/
def fullRoundsLoop (cs : ℕ → F) : ℕ → PoseidonState × ℕ → PoseidonState × ℕ
  | 0, p => p
  | n + 1, p => fullRoundsLoop cs n (full_round cs p.1 p.2, p.2 + 3)

/-- The `for _ in 0..n { partial_round(state, idx); idx += 1 }` loop of
`permute`, threading `(state, idx)`. -/
def partialRoundsLoop (cs : ℕ → F) : ℕ → PoseidonState × ℕ → PoseidonState × ℕ
  | 0, p => p
  | n + 1, p => partialRoundsLoop cs n (partial_round cs p.1 p.2, p.2 + 1)

/-- `permute` from `permutation.rs`: starting with `idx = 0`, run
`FULL_ROUNDS / 2` full rounds, `PARTIAL_ROUNDS` partial rounds, then
`FULL_ROUNDS / 2` full rounds, with the constant index threaded through. -/
def permute (cs : ℕ → F) (s : PoseidonState) : PoseidonState :=
  (fullRoundsLoop cs (FULL_ROUNDS / 2)
    (partialRoundsLoop cs PARTIAL_ROUNDS
      (fullRoundsLoop cs (FULL_ROUNDS / 2) (s, 0)))).1

/-- The fixed MDS matrix `M = ((3,1,1),(1,-1,1),(1,1,-2))` applied to the
state vector, written out as a matrix-vector product (the spec's wording). -/
def mdsMul (s : PoseidonState) : PoseidonState :=
  (3 * s.1 + 1 * s.2.1 + 1 * s.2.2,
   1 * s.1 - 1 * s.2.1 + 1 * s.2.2,
   1 * s.1 + 1 * s.2.1 - 2 * s.2.2)

/-- The round structure asserted by the spec sentence for C2, taken
literally: 8 full rounds, then 83 partial rounds, then 8 full rounds,
consuming round constants sequentially the same way the code's loops do. -/
def permuteSpecC2 (cs : ℕ → F) (s : PoseidonState) : PoseidonState :=
  (fullRoundsLoop cs FULL_ROUNDS
    (partialRoundsLoop cs PARTIAL_ROUNDS
      (fullRoundsLoop cs FULL_ROUNDS (s, 0)))).1

/-- `n` full rounds with an explicit starting index window: round `k` of `n`
reads constants `idx + 3k`, `idx + 3k + 1`, `idx + 3k + 2`. -/
def fullRoundsFrom (cs : ℕ → F) : ℕ → ℕ → PoseidonState → PoseidonState
  | 0, _idx, s => s
  | n + 1, idx, s => fullRoundsFrom cs n (idx + 3) (full_round cs s idx)

/-- `n` partial rounds with an explicit starting index window: round `k` of
`n` reads constant `idx + k`. -/
def partialRoundsFrom (cs : ℕ → F) : ℕ → ℕ → PoseidonState → PoseidonState
  | 0, _idx, s => s
  | n + 1, idx, s => partialRoundsFrom cs n (idx + 1) (partial_round cs s idx)

/-- Full-round loop instrumented to record every constant-table index it
reads, in read order. -/
def fullRoundsLoopT (cs : ℕ → F) :
    ℕ → (PoseidonState × ℕ) × List ℕ → (PoseidonState × ℕ) × List ℕ
  | 0, q => q
  | n + 1, q =>
    fullRoundsLoopT cs n
      ((full_round cs q.1.1 q.1.2, q.1.2 + 3), q.2 ++ [q.1.2, q.1.2 + 1, q.1.2 + 2])

/-- Partial-round loop instrumented to record every constant-table index it
reads, in read order. -/
def partialRoundsLoopT (cs : ℕ → F) :
    ℕ → (PoseidonState × ℕ) × List ℕ → (PoseidonState × ℕ) × List ℕ
  | 0, q => q
  | n + 1, q =>
    partialRoundsLoopT cs n ((partial_round cs q.1.1 q.1.2, q.1.2 + 1), q.2 ++ [q.1.2])

/-- `permute` instrumented with the list of constant-table indices it reads. -/
def permuteT (cs : ℕ → F) (s : PoseidonState) : PoseidonState × List ℕ :=
  let q := fullRoundsLoopT cs (FULL_ROUNDS / 2)
    (partialRoundsLoopT cs PARTIAL_ROUNDS
      (fullRoundsLoopT cs (FULL_ROUNDS / 2) ((s, 0), [])))
  (q.1.1, q.2)

/-! ## Sync pipeline data model (`state_updates.rs`)

Addresses, hashes, keys and values are all `Felt`s (nominal wrappers in the
source).  The maps `regular` / `system` are `HashMap`s in the source: they
are embedded as association lists whose key lists are duplicate-free where a
claim needs that invariant, and whose order stands for the (arbitrary)
iteration order.
-/

/-- The two fields of `BlockHeader` that `verify_one` destructures. -/
structure BlockHeader where
  hash : F
  storage_commitment : F
deriving DecidableEq

/-- `PeerData<T>`: a value tagged with the peer that delivered it. -/
structure PeerData (α : Type) where
  peer : ℕ
  data : α
deriving DecidableEq

/-- `ContractDiffSyncError` from `state_updates.rs`; `anyhow::Error` payloads
are embedded as their message strings. -/
inductive ContractDiffSyncError where
  | DatabaseOrComputeError (msg : String)
  | SignatureVerification (d : PeerData ℕ)
  | StateDiffCommitmentMismatch (d : PeerData ℕ)
deriving DecidableEq

/-- One contract's update: storage writes, optional new nonce, optional new
class (embedded directly as its class hash, which is all `verify_one` reads
from it via `class.class_hash()`). -/
structure ContractUpdate where
  storage : List (F × F)
  nonce : Option F
  classHash : Option F
deriving DecidableEq

/-- `ContractUpdates { regular, system }`. -/
structure ContractUpdates where
  regular : List (F × ContractUpdate)
  system : List (F × ContractUpdate)
deriving DecidableEq

/-- The part of `ContractStateUpdateResult` that `verify_one` reads:
the contract address and the new contract-state hash. -/
structure ContractStateUpdateResult where
  contract_address : F
  state_hash : F
deriving DecidableEq

/-- `VerificationOk` from `state_updates.rs`. -/
structure VerificationOk where
  block_number : ℕ
  block_hash : F
  storage_commitment : F
  contract_update_results : List ContractStateUpdateResult
  trie_nodes : List (F × F)
  contract_updates : ContractUpdates
deriving DecidableEq

/-- The external collaborators of `verify_one`, abstracted as total
functions: the Pedersen hash, the header store, the persisted tries at each
block, the two commit operations (whose internals live in the merkle-tree
crate, not among the sources under review), and the stored nonce/class of
each contract. -/
structure Env where
  pedersen : F → F → F
  blockHeader : ℕ → Option BlockHeader
  loadGlobalTree : ℕ → F → Option F
  loadContractTrie : ℕ → F → F → Option F
  commitContract : (F → Option F) → F
  commitGlobal : (F → Option F) → F × List (F × F)
  nonceOf : F → F
  classOf : F → F

/-- The empty trie: no key has a value. -/
def emptyTrie : F → Option F := fun _ => none

/-- Modelled from the spec: the trie engine's `set(key, value)` (§4.2 of the
spec; `MerkleTree::set` is not among the sources under review).  The working
set is a key-to-value map; setting value zero deletes the leaf. -/
def trieSet (t : F → Option F) (k v : F) : F → Option F :=
  fun x => if x = k then (if v = 0 then none else some v) else t x

/-- Apply a list of `(key, value)` storage writes in order. -/
def applyStorage (t : F → Option F) (us : List (F × F)) : F → Option F :=
  us.foldl (fun t kv => trieSet t kv.1 kv.2) t

/-- Modelled from the spec: `update_contract_state`
(`pathfinder_merkle_tree::contract_state`, not among the sources under
review).  Per §4.5 step 3 and §4.3 of the spec: load the contract's storage
trie at the parent block (empty at genesis), apply every storage write,
commit to obtain the new contract root, resolve the after-update nonce and
class hash (an absent update keeps the stored value), and combine them into
the contract-state hash `Pedersen(Pedersen(Pedersen(class, root), nonce), 0)`. -/
def update_contract_state (env : Env) (parent : Option ℕ) (addr : F)
    (storage : List (F × F)) (nonce classHash : Option F) : ContractStateUpdateResult :=
  let t0 := match parent with
    | some p => env.loadContractTrie p addr
    | none => emptyTrie
  let root := env.commitContract (applyStorage t0 storage)
  let n := nonce.getD (env.nonceOf addr)
  let c := classHash.getD (env.classOf addr)
  ⟨addr, env.pedersen (env.pedersen (env.pedersen c root) n) 0⟩

/-- `BlockNumber::parent()`: `None` at genesis, else the predecessor. -/
def parentOf (bn : ℕ) : Option ℕ := if bn = 0 then none else some (bn - 1)

/-- The regular-contract worker results of `verify_one`: one
`update_contract_state` per entry of `regular`, passing the update's nonce
and class through. -/
def regResults (env : Env) (bn : ℕ) (cu : ContractUpdates) : List ContractStateUpdateResult :=
  cu.regular.map fun au =>
    update_contract_state env (parentOf bn) au.1 au.2.storage au.2.nonce au.2.classHash

/-- The system-contract worker results of `verify_one`: one
`update_contract_state` per entry of `system`, with nonce and class forced
to `None` as in the source. -/
def sysResults (env : Env) (bn : ℕ) (cu : ContractUpdates) : List ContractStateUpdateResult :=
  cu.system.map fun au => update_contract_state env (parentOf bn) au.1 au.2.storage none none

/-- Fold a list of worker results into the global tree via
`storage_commitment_tree.set(contract_address, state_hash)`. -/
def setResults (t : F → Option F) (rs : List ContractStateUpdateResult) : F → Option F :=
  rs.foldl (fun t r => trieSet t r.contract_address r.state_hash) t

/-- The global storage-commitment tree `verify_one` starts from: loaded at
the parent block, or empty at genesis. -/
def initialGlobalTree (env : Env) (bn : ℕ) : F → Option F :=
  match parentOf bn with
  | some p => env.loadGlobalTree p
  | none => emptyTrie

/-- The global tree after `verify_one` has applied all regular results and
then all system results. -/
def finalGlobalTree (env : Env) (bn : ℕ) (cu : ContractUpdates) : F → Option F :=
  setResults (setResults (initialGlobalTree env bn) (regResults env bn cu)) (sysResults env bn cu)

/-- `computed_storage_commitment`: the root returned by committing the final
global tree. -/
def computedStorageCommitment (env : Env) (bn : ℕ) (cu : ContractUpdates) : F :=
  (env.commitGlobal (finalGlobalTree env bn cu)).1

/-- Observable events of one `verify_one` run: a contract's own storage-trie
update returning its result, a `set` of a state hash on the global tree, and
the global commit. -/
inductive Ev where
  | trieCommitted (addr : F)
  | globalSet (addr : F)
  | committedGlobal
deriving DecidableEq

/-- The event trace of one `verify_one` run in execution order: all regular
workers return (the `rayon::scope` and channel-receive barrier), then the
regular `set` loop runs, then the system workers return, then the system
`set` loop, then the global commit. -/
def verifyTrace (env : Env) (bn : ℕ) (cu : ContractUpdates) : List Ev :=
  cu.regular.map (fun au => Ev.trieCommitted au.1)
    ++ (regResults env bn cu).map (fun r => Ev.globalSet r.contract_address)
    ++ cu.system.map (fun au => Ev.trieCommitted au.1)
    ++ (sysResults env bn cu).map (fun r => Ev.globalSet r.contract_address)
    ++ [Ev.committedGlobal]

/-- `verify_one` from `state_updates.rs`, paired with its event trace: look
up the block header (aborting with the generic `anyhow` error "Block header
not found" when absent, before any trie work), apply regular then system
updates to the global tree, commit, compare the computed commitment with
the header's `storage_commitment` field, and return
`StateDiffCommitmentMismatch(peer, block_number)` on mismatch or the
`VerificationOk` payload on success. -/
def verify_one (env : Env) (input : PeerData (ℕ × ContractUpdates)) :
    Except ContractDiffSyncError (PeerData VerificationOk) × List Ev :=
  match env.blockHeader input.data.1 with
  | none => (.error (.DatabaseOrComputeError "Block header not found"), [])
  | some hdr =>
    let bn := input.data.1
    let cu := input.data.2
    let computed := computedStorageCommitment env bn cu
    if hdr.storage_commitment ≠ computed then
      (.error (.StateDiffCommitmentMismatch ⟨input.peer, bn⟩), verifyTrace env bn cu)
    else
      (.ok ⟨input.peer,
        { block_number := bn
          block_hash := hdr.hash
          storage_commitment := hdr.storage_commitment
          contract_update_results := regResults env bn cu ++ sysResults env bn cu
          trie_nodes := (env.commitGlobal (finalGlobalTree env bn cu)).2
          contract_updates := cu }⟩, verifyTrace env bn cu)

/-- The decision logic of `next_missing` from `state_updates.rs`; `highest`
is the result of `highest_block_with_state_update()` and genesis is block 0.
The source computes `(highest < head).then_some(highest + 1)` when a highest
block exists, and `Some(GENESIS)` otherwise. -/
def next_missing (highest : Option ℕ) (head : ℕ) : Option ℕ :=
  match highest with
  | some h => if h < head then some (h + 1) else none
  | none => some 0

/-- The keys of the `regular` map. -/
def regularAddresses (cu : ContractUpdates) : List F := cu.regular.map Prod.fst

/-- The keys of the `system` map. -/
def systemAddresses (cu : ContractUpdates) : List F := cu.system.map Prod.fst

/-- A concrete block header for witnesses. -/
def demoHeader : BlockHeader := ⟨7, 11⟩

/-- A concrete environment for witnesses: every block has header
`demoHeader`, all persisted tries are empty, and the hash/commit
collaborators are simple explicit functions. -/
def demoEnv : Env :=
  { pedersen := fun a b => a + 2 * b + 1
    blockHeader := fun _ => some demoHeader
    loadGlobalTree := fun _ _ => none
    loadContractTrie := fun _ _ _ => none
    commitContract := fun t => (t 0).getD 0
    commitGlobal := fun t => ((t 0).getD 0, [])
    nonceOf := fun _ => 0
    classOf := fun _ => 0 }

/-- `demoEnv` with an empty header store. -/
def envNoHeaders : Env :=
  { demoEnv with blockHeader := fun _ => none }

/-- A block input whose contract address 5 appears in both the `regular` and
the `system` map. -/
def overlapInput : PeerData (ℕ × ContractUpdates) :=
  ⟨1, (0, ⟨[(5, ⟨[], none, none⟩)], [(5, ⟨[], none, none⟩)]⟩)⟩

/-- A concrete block input for the missing-header theorems. -/
def missingInput : PeerData (ℕ × ContractUpdates) := ⟨9, (3, ⟨[], []⟩)⟩

/-- A concrete empty block input. -/
def w1Input : PeerData (ℕ × ContractUpdates) := ⟨2, (0, ⟨[], []⟩)⟩

/-- A concrete block input with one regular and one system contract at
distinct addresses. -/
def orderedInput : PeerData (ℕ × ContractUpdates) :=
  ⟨3, (1, ⟨[(1, ⟨[(2, 3)], some 4, some 5⟩)], [(6, ⟨[(7, 8)], none, none⟩)]⟩)⟩

/-- Two regular contracts in one order. -/
def permLeft : ContractUpdates :=
  ⟨[(1, ⟨[(2, 3)], some 4, none⟩), (2, ⟨[(5, 6)], none, some 7⟩)], [(8, ⟨[], none, none⟩)]⟩

/-- The same two regular contracts in the other order. -/
def permRight : ContractUpdates :=
  ⟨[(2, ⟨[(5, 6)], none, some 7⟩), (1, ⟨[(2, 3)], some 4, none⟩)], [(8, ⟨[], none, none⟩)]⟩

/-- A block input with one system contract carrying a nonce update. -/
def sysNonceInput1 : PeerData (ℕ × ContractUpdates) :=
  ⟨5, (0, ⟨[], [(3, ⟨[(1, 2)], some 9, none⟩)]⟩)⟩

/-- The same block input with the system contract's nonce and class fields
changed. -/
def sysNonceInput2 : PeerData (ℕ × ContractUpdates) :=
  ⟨5, (0, ⟨[], [(3, ⟨[(1, 2)], none, some 4⟩)]⟩)⟩

/-! ## Theorems -/

/-- C6: for every state `(a,b,c)`, `mix` computes `(t+2a, t-2b, t-3c)` with
`t = a+b+c`, and that triple is exactly the MDS matrix-vector product
`M·(a,b,c)` for `M = ((3,1,1),(1,-1,1),(1,1,-2))`. -/
theorem mix_is_mds (a b c : F) :
    mix (a, b, c) = (a + b + c + 2 * a, a + b + c - 2 * b, a + b + c - 3 * c) ∧
    mix (a, b, c) = mdsMul (a, b, c) := by
  constructor <;>
    simp only [mix, mdsMul, double, Prod.mk.injEq] <;>
    refine ⟨by ring, by ring, by ring⟩

set_option maxRecDepth 4000 in
/-- C2 (counterexample): the permutation does not consist of 8 full rounds,
then 83 partial rounds, then 8 full rounds — with the all-zero constant
table and state `(1,0,0)` that structure computes a different result than
`permute`, whose two full-round loops each run `FULL_ROUNDS / 2 = 4` rounds. -/
theorem permute_not_8_83_8 :
    permute (fun _ => 0) (1, 0, 0) ≠ permuteSpecC2 (fun _ => 0) (1, 0, 0) := by
  decide

/-- The full-round loop is the indexed iteration together with its `idx += 3`
bookkeeping. -/
theorem fullRoundsLoop_eq (cs : ℕ → F) (n : ℕ) :
    ∀ s idx, fullRoundsLoop cs n (s, idx) = (fullRoundsFrom cs n idx s, idx + 3 * n) := by
  induction n with
  | zero => intro s idx; simp [fullRoundsLoop, fullRoundsFrom]
  | succ n ih =>
    intro s idx
    rw [fullRoundsLoop, fullRoundsFrom]
    dsimp only
    rw [ih]
    simp only [Prod.mk.injEq]
    exact ⟨trivial, by omega⟩

/-- The partial-round loop is the indexed iteration together with its
`idx += 1` bookkeeping. -/
theorem partialRoundsLoop_eq (cs : ℕ → F) (n : ℕ) :
    ∀ s idx, partialRoundsLoop cs n (s, idx) = (partialRoundsFrom cs n idx s, idx + n) := by
  induction n with
  | zero => intro s idx; simp [partialRoundsLoop, partialRoundsFrom]
  | succ n ih =>
    intro s idx
    rw [partialRoundsLoop, partialRoundsFrom]
    dsimp only
    rw [ih]
    simp only [Prod.mk.injEq]
    exact ⟨trivial, by omega⟩

/-- C2 (amended): the permutation consists of 4 full rounds (constants
0..11), then 83 partial rounds (constants 12..94), then 4 full rounds
(constants 95..106) — `FULL_ROUNDS = 8` full rounds in total, split evenly
around the partial rounds. -/
theorem permute_rounds_structure (cs : ℕ → F) (s : PoseidonState) :
    permute cs s =
      fullRoundsFrom cs 4 95 (partialRoundsFrom cs 83 12 (fullRoundsFrom cs 4 0 s)) := by
  show (fullRoundsLoop cs 4 (partialRoundsLoop cs 83 (fullRoundsLoop cs 4 (s, 0)))).1 = _
  rw [fullRoundsLoop_eq, partialRoundsLoop_eq, fullRoundsLoop_eq]

theorem fullRoundsLoopT_fst (cs : ℕ → F) (n : ℕ) :
    ∀ p log, (fullRoundsLoopT cs n (p, log)).1 = fullRoundsLoop cs n p := by
  induction n with
  | zero => intro p log; rfl
  | succ n ih =>
    intro p log
    rw [fullRoundsLoopT, fullRoundsLoop]
    exact ih _ _

theorem partialRoundsLoopT_fst (cs : ℕ → F) (n : ℕ) :
    ∀ p log, (partialRoundsLoopT cs n (p, log)).1 = partialRoundsLoop cs n p := by
  induction n with
  | zero => intro p log; rfl
  | succ n ih =>
    intro p log
    rw [partialRoundsLoopT, partialRoundsLoop]
    exact ih _ _

theorem fullRoundsLoopT_snd (cs : ℕ → F) (n : ℕ) :
    ∀ (p : PoseidonState × ℕ) (log : List ℕ),
      (fullRoundsLoopT cs n (p, log)).2 = log ++ List.range' p.2 (3 * n) := by
  induction n with
  | zero => intro p log; simp [fullRoundsLoopT]
  | succ n ih =>
    intro p log
    rw [fullRoundsLoopT]
    dsimp only
    rw [ih]
    have h3 : [p.2, p.2 + 1, p.2 + 2] = List.range' p.2 3 := by
      simp [List.range']
    rw [List.append_assoc, h3]
    have happ := List.range'_append p.2 3 (3 * n) 1
    simp only [one_mul] at happ
    rw [happ]
    have h4 : 3 * n + 3 = 3 * (n + 1) := by omega
    rw [h4]

theorem partialRoundsLoopT_snd (cs : ℕ → F) (n : ℕ) :
    ∀ (p : PoseidonState × ℕ) (log : List ℕ),
      (partialRoundsLoopT cs n (p, log)).2 = log ++ List.range' p.2 n := by
  induction n with
  | zero => intro p log; simp [partialRoundsLoopT]
  | succ n ih =>
    intro p log
    rw [partialRoundsLoopT]
    dsimp only
    rw [ih]
    have h1 : [p.2] = List.range' p.2 1 := by simp [List.range']
    rw [List.append_assoc, h1]
    have happ := List.range'_append p.2 1 n 1
    simp only [one_mul] at happ
    rw [happ]

theorem fullRoundsLoop_idx (cs : ℕ → F) (n : ℕ) (p : PoseidonState × ℕ) :
    (fullRoundsLoop cs n p).2 = p.2 + 3 * n := by
  rw [show p = (p.1, p.2) from rfl, fullRoundsLoop_eq]

theorem partialRoundsLoop_idx (cs : ℕ → F) (n : ℕ) (p : PoseidonState × ℕ) :
    (partialRoundsLoop cs n p).2 = p.2 + n := by
  rw [show p = (p.1, p.2) from rfl, partialRoundsLoop_eq]

/-- C10: for every constant table and initial state, `permute` reads the
constant table exactly at indices `0..106` in order — the first 4 full
rounds read `0..11`, the 83 partial rounds read `12..94`, the last 4 full
rounds read `95..106` — so every access index is below 107 and a table with
at least 107 entries is never accessed out of bounds. -/
theorem poseidon_constant_indices (cs : ℕ → F) (s : PoseidonState) :
    (permuteT cs s).1 = permute cs s ∧
    (fullRoundsLoopT cs (FULL_ROUNDS / 2) ((s, 0), [])).2 = List.range' 0 12 ∧
    (partialRoundsLoopT cs PARTIAL_ROUNDS
        (fullRoundsLoopT cs (FULL_ROUNDS / 2) ((s, 0), []))).2 =
      List.range' 0 12 ++ List.range' 12 83 ∧
    (permuteT cs s).2 = List.range' 0 12 ++ (List.range' 12 83 ++ List.range' 95 12) ∧
    (permuteT cs s).2 = List.range 107 ∧
    (∀ i ∈ (permuteT cs s).2, i < 107) := by
  have h42 : FULL_ROUNDS / 2 = 4 := rfl
  have h83 : PARTIAL_ROUNDS = 83 := rfl
  have hq1 : fullRoundsLoopT cs 4 ((s, 0), []) =
      (fullRoundsLoop cs 4 (s, 0), List.range' 0 12) := by
    refine Prod.ext (fullRoundsLoopT_fst cs 4 (s, 0) []) ?_
    have h := fullRoundsLoopT_snd cs 4 (s, 0) []
    simpa using h
  have hp1idx : (fullRoundsLoop cs 4 (s, 0)).2 = 12 := by
    rw [fullRoundsLoop_idx]
  have hq2 : partialRoundsLoopT cs 83 (fullRoundsLoopT cs 4 ((s, 0), [])) =
      (partialRoundsLoop cs 83 (fullRoundsLoop cs 4 (s, 0)),
       List.range' 0 12 ++ List.range' 12 83) := by
    rw [hq1]
    refine Prod.ext (partialRoundsLoopT_fst cs 83 _ _) ?_
    have h := partialRoundsLoopT_snd cs 83 (fullRoundsLoop cs 4 (s, 0)) (List.range' 0 12)
    rw [hp1idx] at h
    simpa using h
  have hp2idx : (partialRoundsLoop cs 83 (fullRoundsLoop cs 4 (s, 0))).2 = 95 := by
    rw [partialRoundsLoop_idx, hp1idx]
  have hq3 : fullRoundsLoopT cs 4
      (partialRoundsLoopT cs 83 (fullRoundsLoopT cs 4 ((s, 0), []))) =
      (fullRoundsLoop cs 4 (partialRoundsLoop cs 83 (fullRoundsLoop cs 4 (s, 0))),
       (List.range' 0 12 ++ List.range' 12 83) ++ List.range' 95 12) := by
    rw [hq2]
    refine Prod.ext (fullRoundsLoopT_fst cs 4 _ _) ?_
    have h := fullRoundsLoopT_snd cs 4
      (partialRoundsLoop cs 83 (fullRoundsLoop cs 4 (s, 0)))
      (List.range' 0 12 ++ List.range' 12 83)
    rw [hp2idx] at h
    simpa using h
  have htr : (permuteT cs s).2 =
      List.range' 0 12 ++ (List.range' 12 83 ++ List.range' 95 12) := by
    show (fullRoundsLoopT cs (FULL_ROUNDS / 2)
      (partialRoundsLoopT cs PARTIAL_ROUNDS
        (fullRoundsLoopT cs (FULL_ROUNDS / 2) ((s, 0), [])))).2 = _
    rw [h42, h83, hq3, List.append_assoc]
  have hrange : List.range' 0 12 ++ (List.range' 12 83 ++ List.range' 95 12) =
      List.range 107 := by
    have ha := List.range'_append 0 12 83 1
    have hb := List.range'_append 0 95 12 1
    simp only [one_mul, Nat.zero_add] at ha hb
    norm_num at ha hb
    rw [← List.append_assoc, ha, hb, List.range_eq_range']
  refine ⟨?_, ?_, ?_, htr, ?_, ?_⟩
  · show (fullRoundsLoopT cs (FULL_ROUNDS / 2)
      (partialRoundsLoopT cs PARTIAL_ROUNDS
        (fullRoundsLoopT cs (FULL_ROUNDS / 2) ((s, 0), [])))).1.1 = permute cs s
    rw [h42, h83, hq3]
    rfl
  · rw [h42, hq1]
  · rw [h42, h83, hq2]
  · rw [htr, hrange]
  · intro i hi
    rw [htr, hrange] at hi
    exact List.mem_range.mp hi

/-- C1: once the block header is found, `verify_one` returns the
`StateDiffCommitmentMismatch` error carrying the peer and block number if
and only if the computed storage commitment differs from the header's
`storage_commitment` field; when they agree it returns a success whose
`storage_commitment` is the header's value. -/
theorem verify_one_commitment_check (env : Env) (input : PeerData (ℕ × ContractUpdates))
    (hdr : BlockHeader) (h : env.blockHeader input.data.1 = some hdr) :
    ((verify_one env input).1 =
        .error (.StateDiffCommitmentMismatch ⟨input.peer, input.data.1⟩) ↔
      computedStorageCommitment env input.data.1 input.data.2 ≠ hdr.storage_commitment) ∧
    (computedStorageCommitment env input.data.1 input.data.2 = hdr.storage_commitment →
      ∃ ok, (verify_one env input).1 = .ok ⟨input.peer, ok⟩ ∧
        ok.storage_commitment = hdr.storage_commitment) := by
  unfold verify_one
  rw [h]
  dsimp only
  by_cases hc : hdr.storage_commitment =
      computedStorageCommitment env input.data.1 input.data.2
  · rw [if_neg (by simpa using hc)]
    constructor
    · constructor
      · intro hco
        exact absurd hco (by simp)
      · intro hne
        exact absurd hc.symm hne
    · intro _
      exact ⟨_, rfl, hc ▸ rfl⟩
  · rw [if_pos (by simpa using hc)]
    constructor
    · constructor
      · intro _
        exact fun he => hc (he ▸ rfl)
      · intro _
        rfl
    · intro he
      exact absurd he.symm hc

/-- C1 (witness): the commitment-check characterization instantiated at a
concrete environment and empty block input. -/
theorem verify_one_commitment_check_witness :
    ((verify_one demoEnv w1Input).1 =
        .error (.StateDiffCommitmentMismatch ⟨w1Input.peer, w1Input.data.1⟩) ↔
      computedStorageCommitment demoEnv w1Input.data.1 w1Input.data.2 ≠
        demoHeader.storage_commitment) ∧
    (computedStorageCommitment demoEnv w1Input.data.1 w1Input.data.2 =
        demoHeader.storage_commitment →
      ∃ ok, (verify_one demoEnv w1Input).1 = .ok ⟨w1Input.peer, ok⟩ ∧
        ok.storage_commitment = demoHeader.storage_commitment) :=
  verify_one_commitment_check demoEnv w1Input demoHeader rfl

/-- C3: the decision logic of `next_missing` matches the spec sentence: if a
highest block with a state update exists and is below `head`, the result is
`min(highest + 1, head)` (which equals `highest + 1` there); if it is at or
above `head`, the result is `None`; if nothing is persisted, the result is
genesis (block 0). -/
theorem next_missing_spec (highest : Option ℕ) (head : ℕ) :
    next_missing highest head =
      match highest with
      | some h => if h < head then some (min (h + 1) head) else none
      | none => some 0 := by
  cases highest with
  | none => rfl
  | some h =>
    by_cases hh : h < head
    · simp only [next_missing, if_pos hh]
      rw [Nat.min_eq_left (by omega)]
    · simp only [next_missing, if_neg hh]

/-- C4 (counterexample): with the header store empty, `verify_one` aborts
with the generic `DatabaseOrComputeError "Block header not found"` — the
error enum `ContractDiffSyncError` has no `MissingHeader` variant and the
returned error carries neither block number nor peer. -/
theorem verify_one_missing_header_generic_error :
    (verify_one envNoHeaders missingInput).1 =
      .error (.DatabaseOrComputeError "Block header not found") := by
  rfl

/-- C4 (amended): when the header lookup returns nothing, `verify_one`
aborts with the generic anyhow-style error `"Block header not found"`
(embedded as `DatabaseOrComputeError`), and its event trace is empty: no
contract-trie update, no global-tree `set`, and no commitment check
happened. -/
theorem verify_one_missing_header (env : Env) (input : PeerData (ℕ × ContractUpdates))
    (h : env.blockHeader input.data.1 = none) :
    (verify_one env input).1 = .error (.DatabaseOrComputeError "Block header not found") ∧
    (verify_one env input).2 = [] := by
  unfold verify_one
  rw [h]
  exact ⟨rfl, rfl⟩

/-- C4 (witness): the missing-header behaviour at a concrete environment
and input. -/
theorem verify_one_missing_header_witness :
    (verify_one envNoHeaders missingInput).1 =
      .error (.DatabaseOrComputeError "Block header not found") ∧
    (verify_one envNoHeaders missingInput).2 = [] :=
  verify_one_missing_header envNoHeaders missingInput rfl

theorem regResults_addresses (env : Env) (bn : ℕ) (cu : ContractUpdates) :
    (regResults env bn cu).map (fun r => r.contract_address) = regularAddresses cu := by
  unfold regResults regularAddresses
  rw [List.map_map]
  rfl

theorem sysResults_addresses (env : Env) (bn : ℕ) (cu : ContractUpdates) :
    (sysResults env bn cu).map (fun r => r.contract_address) = systemAddresses cu := by
  unfold sysResults systemAddresses
  rw [List.map_map]
  rfl

/-- The event trace of `verify_one` in terms of the two key lists. -/
theorem verifyTrace_eq (env : Env) (bn : ℕ) (cu : ContractUpdates) :
    verifyTrace env bn cu =
      (regularAddresses cu).map Ev.trieCommitted
        ++ (regularAddresses cu).map Ev.globalSet
        ++ (systemAddresses cu).map Ev.trieCommitted
        ++ (systemAddresses cu).map Ev.globalSet
        ++ [Ev.committedGlobal] := by
  unfold verifyTrace
  have h1 : (regResults env bn cu).map (fun r => Ev.globalSet r.contract_address) =
      (regularAddresses cu).map Ev.globalSet := by
    rw [← regResults_addresses env bn cu, List.map_map]
    rfl
  have h2 : (sysResults env bn cu).map (fun r => Ev.globalSet r.contract_address) =
      (systemAddresses cu).map Ev.globalSet := by
    rw [← sysResults_addresses env bn cu, List.map_map]
    rfl
  have h3 : cu.regular.map (fun au => Ev.trieCommitted au.1) =
      (regularAddresses cu).map Ev.trieCommitted := by
    unfold regularAddresses
    rw [List.map_map]
    rfl
  have h4 : cu.system.map (fun au => Ev.trieCommitted au.1) =
      (systemAddresses cu).map Ev.trieCommitted := by
    unfold systemAddresses
    rw [List.map_map]
    rfl
  rw [h1, h2, h3, h4]

/-- Once the header is found, `verify_one`'s trace is `verifyTrace`, on both
the mismatch and the success path. -/
theorem verify_one_trace (env : Env) (input : PeerData (ℕ × ContractUpdates))
    (hdr : BlockHeader) (h : env.blockHeader input.data.1 = some hdr) :
    (verify_one env input).2 = verifyTrace env input.data.1 input.data.2 := by
  unfold verify_one
  rw [h]
  dsimp only
  split <;> rfl

theorem globalSet_inj : Function.Injective Ev.globalSet := by
  intro x y h
  injection h

/-- C7 (counterexample): with contract address 5 present in both the
`regular` and the `system` map, `verify_one` sets address 5 on the global
tree twice, so "each contract address in the update maps is set exactly
once" fails for that input. -/
theorem verify_one_sets_twice_on_overlap :
    ((verify_one demoEnv overlapInput).2).count (Ev.globalSet 5) = 2 := by
  decide

/-- C7 (amended): once the header is found, and provided the `regular` and
`system` key lists are duplicate-free (the `HashMap` invariant) and no
address occurs in both maps, the trace of one `verify_one` run splits into a
prefix holding every regular global-tree `set` and a suffix holding every
system `set` (regular sets happen before system sets); every address in the
maps is set exactly once; and each address's set occurs only after that
contract's own storage-trie update has returned its result. -/
theorem verify_one_trace_order (env : Env) (input : PeerData (ℕ × ContractUpdates))
    (hdr : BlockHeader) (hh : env.blockHeader input.data.1 = some hdr)
    (hnr : (regularAddresses input.data.2).Nodup)
    (hns : (systemAddresses input.data.2).Nodup)
    (hdisj : ∀ a ∈ regularAddresses input.data.2, a ∉ systemAddresses input.data.2) :
    (∃ t1 t2, (verify_one env input).2 = t1 ++ t2 ∧
      (∀ a ∈ regularAddresses input.data.2, Ev.globalSet a ∈ t1 ∧ Ev.globalSet a ∉ t2) ∧
      (∀ b ∈ systemAddresses input.data.2, Ev.globalSet b ∈ t2 ∧ Ev.globalSet b ∉ t1)) ∧
    (∀ a, a ∈ regularAddresses input.data.2 ∨ a ∈ systemAddresses input.data.2 →
      ((verify_one env input).2).count (Ev.globalSet a) = 1) ∧
    (∀ a, a ∈ regularAddresses input.data.2 ∨ a ∈ systemAddresses input.data.2 →
      ∃ t1 t2, (verify_one env input).2 = t1 ++ t2 ∧
        Ev.trieCommitted a ∈ t1 ∧ Ev.globalSet a ∉ t1) := by
  have htr : (verify_one env input).2 =
      (regularAddresses input.data.2).map Ev.trieCommitted
        ++ (regularAddresses input.data.2).map Ev.globalSet
        ++ (systemAddresses input.data.2).map Ev.trieCommitted
        ++ (systemAddresses input.data.2).map Ev.globalSet
        ++ [Ev.committedGlobal] := by
    rw [verify_one_trace env input hdr hh, verifyTrace_eq]
  refine ⟨?_, ?_, ?_⟩
  · refine ⟨(regularAddresses input.data.2).map Ev.trieCommitted
        ++ (regularAddresses input.data.2).map Ev.globalSet,
      (systemAddresses input.data.2).map Ev.trieCommitted
        ++ (systemAddresses input.data.2).map Ev.globalSet
        ++ [Ev.committedGlobal], ?_, ?_, ?_⟩
    · rw [htr]
      simp [List.append_assoc]
    · intro a ha
      constructor
      · simp [ha]
      · intro hmem
        simp at hmem
        exact hdisj a ha hmem
    · intro b hb
      constructor
      · simp [hb]
      · intro hmem
        simp at hmem
        exact hdisj b hmem hb
  · intro a ha
    rw [htr]
    simp only [List.count_append]
    have h0 : ∀ l : List F, (l.map Ev.trieCommitted).count (Ev.globalSet a) = 0 := by
      intro l
      refine List.count_eq_zero.mpr ?_
      simp
    have hcg : ([Ev.committedGlobal] : List Ev).count (Ev.globalSet a) = 0 := by
      simp
    have hmapR := List.count_map_of_injective
      (regularAddresses input.data.2) Ev.globalSet globalSet_inj a
    have hmapS := List.count_map_of_injective
      (systemAddresses input.data.2) Ev.globalSet globalSet_inj a
    rw [h0, h0, hcg, hmapR, hmapS]
    rcases ha with ha | ha
    · have hR : (regularAddresses input.data.2).count a = 1 :=
        List.count_eq_one_of_mem hnr ha
      have hS : (systemAddresses input.data.2).count a = 0 :=
        List.count_eq_zero.mpr (hdisj a ha)
      omega
    · have hR : (regularAddresses input.data.2).count a = 0 := by
        refine List.count_eq_zero.mpr ?_
        intro hmem
        exact hdisj a hmem ha
      have hS : (systemAddresses input.data.2).count a = 1 :=
        List.count_eq_one_of_mem hns ha
      omega
  · intro a ha
    rcases ha with ha | ha
    · refine ⟨(regularAddresses input.data.2).map Ev.trieCommitted,
        (regularAddresses input.data.2).map Ev.globalSet
          ++ (systemAddresses input.data.2).map Ev.trieCommitted
          ++ (systemAddresses input.data.2).map Ev.globalSet
          ++ [Ev.committedGlobal], ?_, ?_, ?_⟩
      · rw [htr]
        simp [List.append_assoc]
      · simp [ha]
      · simp
    · refine ⟨(regularAddresses input.data.2).map Ev.trieCommitted
          ++ (regularAddresses input.data.2).map Ev.globalSet
          ++ (systemAddresses input.data.2).map Ev.trieCommitted,
        (systemAddresses input.data.2).map Ev.globalSet ++ [Ev.committedGlobal], ?_, ?_, ?_⟩
      · rw [htr]
        simp [List.append_assoc]
      · simp [ha]
      · intro hmem
        simp at hmem
        exact hdisj a hmem ha

/-- C7 (witness): the trace ordering at a concrete environment and a block
with one regular and one system contract. -/
theorem verify_one_trace_order_witness :
    (∃ t1 t2, (verify_one demoEnv orderedInput).2 = t1 ++ t2 ∧
      (∀ a ∈ regularAddresses orderedInput.data.2, Ev.globalSet a ∈ t1 ∧ Ev.globalSet a ∉ t2) ∧
      (∀ b ∈ systemAddresses orderedInput.data.2, Ev.globalSet b ∈ t2 ∧ Ev.globalSet b ∉ t1)) ∧
    (∀ a, a ∈ regularAddresses orderedInput.data.2 ∨ a ∈ systemAddresses orderedInput.data.2 →
      ((verify_one demoEnv orderedInput).2).count (Ev.globalSet a) = 1) ∧
    (∀ a, a ∈ regularAddresses orderedInput.data.2 ∨ a ∈ systemAddresses orderedInput.data.2 →
      ∃ t1 t2, (verify_one demoEnv orderedInput).2 = t1 ++ t2 ∧
        Ev.trieCommitted a ∈ t1 ∧ Ev.globalSet a ∉ t1) :=
  verify_one_trace_order demoEnv orderedInput demoHeader rfl (by decide) (by decide)
    (by decide)

/-- Two `set`s at distinct keys commute. -/
theorem trieSet_comm (t : F → Option F) (k1 v1 k2 v2 : F) (hk : k1 ≠ k2) :
    trieSet (trieSet t k1 v1) k2 v2 = trieSet (trieSet t k2 v2) k1 v1 := by
  funext x
  unfold trieSet
  by_cases h1 : x = k1
  · subst h1
    rw [if_neg hk, if_pos rfl, if_pos rfl]
  · by_cases h2 : x = k2
    · subst h2
      rw [if_pos rfl, if_neg (Ne.symm hk), if_pos rfl]
    · rw [if_neg h2, if_neg h1, if_neg h1, if_neg h2]

/-- Folding a duplicate-key-free list of worker results into the global tree
is invariant under permutation of the list. -/
theorem setResults_perm (rs rs' : List ContractStateUpdateResult) (hp : rs.Perm rs') :
    (rs.map (fun r => r.contract_address)).Nodup →
      ∀ t, setResults t rs = setResults t rs' := by
  induction hp with
  | nil => intro _ t; rfl
  | cons x h ih =>
    intro hn t
    rw [List.map_cons] at hn
    have hn' := (List.nodup_cons.mp hn).2
    unfold setResults at *
    simp only [List.foldl_cons]
    exact ih hn' _
  | swap x y l =>
    intro hn t
    rw [List.map_cons, List.map_cons] at hn
    have h1 := List.nodup_cons.mp hn
    have hxy : y.contract_address ≠ x.contract_address := by
      intro heq
      exact h1.1 (by rw [heq]; exact List.mem_cons_self _ _)
    unfold setResults
    simp only [List.foldl_cons]
    rw [trieSet_comm t _ _ _ _ hxy]
  | trans h12 h23 ih12 ih23 =>
    intro hn t
    have hn2 := (h12.map (fun r => r.contract_address)).nodup hn
    rw [ih12 hn t, ih23 hn2 t]

/-- The final global tree is invariant under reordering the `regular`
entries among themselves and the `system` entries among themselves, provided
each map's keys are duplicate-free. -/
theorem finalGlobalTree_perm (env : Env) (bn : ℕ) (cu cu' : ContractUpdates)
    (hr : cu.regular.Perm cu'.regular) (hs : cu.system.Perm cu'.system)
    (hnr : (regularAddresses cu).Nodup) (hns : (systemAddresses cu).Nodup) :
    finalGlobalTree env bn cu = finalGlobalTree env bn cu' := by
  unfold finalGlobalTree
  have hregperm : (regResults env bn cu).Perm (regResults env bn cu') := hr.map _
  have hsysperm : (sysResults env bn cu).Perm (sysResults env bn cu') := hs.map _
  have hnr' : ((regResults env bn cu).map (fun r => r.contract_address)).Nodup := by
    rw [regResults_addresses]
    exact hnr
  have hns' : ((sysResults env bn cu).map (fun r => r.contract_address)).Nodup := by
    rw [sysResults_addresses]
    exact hns
  rw [setResults_perm _ _ hregperm hnr' (initialGlobalTree env bn)]
  rw [setResults_perm _ _ hsysperm hns']

/-- C8: for any reordering of the `regular` entries among themselves and of
the `system` entries among themselves (keys duplicate-free, as for
`HashMap`s), committing the global storage-commitment tree yields the same
`storage_commitment` root. -/
theorem commitment_independent_of_order (env : Env) (bn : ℕ) (cu cu' : ContractUpdates)
    (hr : cu.regular.Perm cu'.regular) (hs : cu.system.Perm cu'.system)
    (hnr : (regularAddresses cu).Nodup) (hns : (systemAddresses cu).Nodup) :
    computedStorageCommitment env bn cu = computedStorageCommitment env bn cu' := by
  unfold computedStorageCommitment
  rw [finalGlobalTree_perm env bn cu cu' hr hs hnr hns]

/-- C8 (witness): the commitment is unchanged when the two regular entries
of a concrete block are swapped. -/
theorem commitment_independent_of_order_witness :
    computedStorageCommitment demoEnv 0 permLeft =
      computedStorageCommitment demoEnv 0 permRight :=
  commitment_independent_of_order demoEnv 0 permLeft permRight
    (by decide) (by decide) (by decide) (by decide)

/-- Mapping `update_contract_state` with nonce and class forced to `None`
over two pointwise address- and storage-equal lists gives equal results. -/
theorem ucs_map_storage_only (env : Env) (p : Option ℕ)
    (l1 l2 : List (F × ContractUpdate))
    (h : List.Forall₂ (fun e1 e2 => e1.1 = e2.1 ∧ e1.2.storage = e2.2.storage) l1 l2) :
    l1.map (fun au => update_contract_state env p au.1 au.2.storage none none) =
      l2.map (fun au => update_contract_state env p au.1 au.2.storage none none) := by
  induction h with
  | nil => rfl
  | cons hh _ ih =>
    simp only [List.map_cons]
    rw [ih, hh.1, hh.2]

/-- C9: two block inputs that agree on peer, block number and the whole
`regular` group, and whose `system` groups agree entrywise on address and
storage (nonce and class fields arbitrary), produce the same computed
storage commitment and the same accept/reject outcome — `verify_one` forces
system nonce and class to `None`, so those fields never influence the
result. -/
theorem system_nonce_class_ignored (env : Env)
    (input1 input2 : PeerData (ℕ × ContractUpdates))
    (_hp : input1.peer = input2.peer)
    (hbn : input1.data.1 = input2.data.1)
    (hreg : input1.data.2.regular = input2.data.2.regular)
    (hsys : List.Forall₂ (fun e1 e2 => e1.1 = e2.1 ∧ e1.2.storage = e2.2.storage)
      input1.data.2.system input2.data.2.system) :
    computedStorageCommitment env input1.data.1 input1.data.2 =
      computedStorageCommitment env input2.data.1 input2.data.2 ∧
    (verify_one env input1).1.isOk = (verify_one env input2).1.isOk := by
  have h1 : regResults env input1.data.1 input1.data.2 =
      regResults env input2.data.1 input2.data.2 := by
    unfold regResults
    rw [← hbn, hreg]
  have h2 : sysResults env input1.data.1 input1.data.2 =
      sysResults env input2.data.1 input2.data.2 := by
    unfold sysResults
    rw [← hbn]
    exact ucs_map_storage_only env (parentOf input1.data.1) _ _ hsys
  have hcs : computedStorageCommitment env input1.data.1 input1.data.2 =
      computedStorageCommitment env input2.data.1 input2.data.2 := by
    unfold computedStorageCommitment finalGlobalTree initialGlobalTree
    rw [h1, h2, ← hbn]
  refine ⟨hcs, ?_⟩
  unfold verify_one
  rw [← hbn]
  cases henv : env.blockHeader input1.data.1 with
  | none => rfl
  | some hdr =>
    dsimp only
    rw [hcs, hbn]
    by_cases hc : hdr.storage_commitment =
        computedStorageCommitment env input2.data.1 input2.data.2
    · rw [if_neg (by simpa using hc), if_neg (by simpa using hc)]
      rfl
    · rw [if_pos (by simpa using hc), if_pos (by simpa using hc)]
      rfl

/-- C9 (witness): two concrete inputs differing only in one system entry's
nonce and class fields give the same commitment and the same outcome. -/
theorem system_nonce_class_ignored_witness :
    computedStorageCommitment demoEnv sysNonceInput1.data.1 sysNonceInput1.data.2 =
      computedStorageCommitment demoEnv sysNonceInput2.data.1 sysNonceInput2.data.2 ∧
    (verify_one demoEnv sysNonceInput1).1.isOk = (verify_one demoEnv sysNonceInput2).1.isOk :=
  system_nonce_class_ignored demoEnv sysNonceInput1 sysNonceInput2 rfl rfl rfl
    (.cons ⟨rfl, rfl⟩ .nil)

end PathfinderSpec
